import Mathlib

/-!
Verification development for the `fierceful-atto` turn-based battle engine.

The Rust sources are shallowly embedded: machine integers (`u64`, `u8`) become
`Nat` with explicit saturation bounds, struct update becomes functional record
update, iterator pipelines become `List` operations, and every `expect`/`panic!`
site becomes a `none` result of an `Option`-valued function.
-/

namespace FiercefulAtto

/-- Maximum value of a Rust `u64`, that is `2 ^ 64 - 1`. -/
def U64MAX : Nat := 18446744073709551615

/-- Maximum value of a Rust `u8`. -/
def U8MAX : Nat := 255

/-- Rust `u64::saturating_add`, on values modelled as `Nat`. -/
def satAdd (a b : Nat) : Nat := min (a + b) U64MAX

/-- Rust `u8::saturating_add`, on values modelled as `Nat`. -/
def satAdd8 (a b : Nat) : Nat := min (a + b) U8MAX

/-- Rust `u64::saturating_sub`: on `Nat` this is truncated subtraction,
which already never goes below zero. -/
def satSub (a b : Nat) : Nat := a - b

/-- Embeds `member.rs` / `action.rs` `MemberIdentifier`: team index plus
member index within that team. -/
structure MemberIdentifier where
  team_id : Nat
  member_id : Nat
deriving DecidableEq, Repr

/-- Rust `#[derive(Default)]` produces the zeroed identifier `(0, 0)`. -/
instance : Inhabited MemberIdentifier := ⟨⟨0, 0⟩⟩

/-- Embeds `MemberIdentifier::zeroed`. -/
def MemberIdentifier.zeroed : MemberIdentifier := ⟨0, 0⟩

/-- Embeds the `Statistics` capability of `member.rs`: immutable baseline
values (`reference_health`, `base_attack`). -/
structure Statistics where
  reference_health : Nat
  base_attack : Nat
deriving DecidableEq, Repr

/-- Embeds the `Properties` capability of `member.rs`: mutable current values,
principally `health`, plus the final `attack` value after modifiers. -/
structure Properties where
  health : Nat
  attack : Nat
deriving DecidableEq, Repr

/-- Embeds the default `Properties::damage` of `member.rs`:
`*self.health_mut() = self.health().saturating_sub(damage)`. -/
def Properties.damage (p : Properties) (damage : Nat) : Properties :=
  { p with health := satSub p.health damage }

/-- Embeds the `Member` capability of `member.rs`. The trait's
`final_properties()` composes base properties with equipment bonuses through a
user-supplied `sum_properties`; the core only ever reads the resulting attack
value, recorded here as the field `final_attack`. -/
structure Member where
  name : String
  statistics : Statistics
  properties : Properties
  final_attack : Nat
deriving DecidableEq, Repr

/-- Embeds `Member::health`: `self.member_properties().health()`. -/
def Member.health (m : Member) : Nat := m.properties.health

/-- Embeds `Member::damage`: delegates to `Properties::damage`. -/
def Member.damage (m : Member) (damage : Nat) : Member :=
  { m with properties := m.properties.damage damage }

/-- Embeds `team.rs` `Team`: a display name plus an ordered member list. -/
structure Team where
  name : String
  member_list : List Member
deriving DecidableEq, Repr

instance : Inhabited Team := ⟨⟨"", []⟩⟩

/-- Looks a member up by identifier: `team_list.get(id.team_id)` followed by
`team.member(id.member_id)`. -/
def memberAt? (team_list : List Team) (id : MemberIdentifier) : Option Member := do
  let team ← team_list[id.team_id]?
  team.member_list[id.member_id]?

/-- An identifier resolves when its team exists and its member index is in
range for that team. -/
def resolvesId (team_list : List Team) (id : MemberIdentifier) : Bool :=
  (memberAt? team_list id).isSome

/-- Embeds the `Target` enum of `action.rs`. -/
inductive Target where
  | Single (id : MemberIdentifier)
  | DiscreteMultiple (ids : List MemberIdentifier)
  | FullTeam (team_id : Nat)
  | All
deriving DecidableEq, Repr

/-- The roster enumerated with coordinates, as produced by
`team_list.iter_mut().enumerate().flat_map(|(i, t)| repeat(i).zip(t.member_list_mut().iter_mut().enumerate()))`
in the `DiscreteMultiple` arm of `Context::target_iter`. -/
def enumRoster (team_list : List Team) : List (MemberIdentifier × Member) :=
  team_list.enum.flatMap (fun ti =>
    ti.2.member_list.enum.map (fun mj => (⟨ti.1, mj.1⟩, mj.2)))

/-- Embeds `Context::target_iter` of `action.rs`. A `none` result models a
panic: the `Single` arm calls `.expect(...)` on both the team and the member
lookup, and the `FullTeam` arm calls `.expect(...)` on the team lookup. The
`DiscreteMultiple` arm filters the enumerated roster by membership of the
coordinate in the requested id list, and `All` flattens every team. -/
def targetIter (team_list : List Team) : Target → Option (List Member)
  | .Single id => do
      let team ← team_list[id.team_id]?
      let m ← team.member_list[id.member_id]?
      pure [m]
  | .DiscreteMultiple targets =>
      some (((enumRoster team_list).filter (fun p => targets.contains p.1)).map Prod.snd)
  | .FullTeam team_id => do
      let team ← team_list[team_id]?
      pure team.member_list
  | .All => some (team_list.flatMap Team.member_list)

/-- Embeds the per-target body of `Heal::act` in `catalogue/actions.rs`:
`current_health.saturating_add(self.amount).min(max_health)` written back into
the member's health. -/
def healMember (amount : Nat) (target : Member) : Member :=
  let max_health := target.statistics.reference_health
  let current_health := target.health
  let new_health := min (satAdd current_health amount) max_health
  { target with properties := { target.properties with health := new_health } }

/-- Embeds `Heal::act` applied to the resolved target sequence. -/
def healAct (amount : Nat) (targets : List Member) : List Member :=
  targets.map (healMember amount)

/-- Embeds the performer fold shared by `DirectAttack::act` and
`AreaAttack::act`: `.map(final attack).fold(0u64, saturating_add)`. -/
def totalAttack (performers : List Member) : Nat :=
  performers.foldl (fun acc p => satAdd acc p.final_attack) 0

/-- Embeds `AreaAttack::act` of `catalogue/actions.rs`: when there is at least
one target, each target takes `total_attack / target_count` damage (integer
division); with no targets nothing happens. -/
def areaAttackAct (performers targets : List Member) : List Member :=
  let total_attack := totalAttack performers
  let target_count := targets.length
  if 0 < target_count then
    let damage_per_target := total_attack / target_count
    targets.map (fun t => t.damage damage_per_target)
  else
    targets

/-- Embeds `cycle_from_point_enumerated` of `search.rs`:
`slice.iter().enumerate().cycle().skip(start_pos).take(slice.len())`.
The enumerated stream is periodic with period `slice.length`, so skipping
`start_pos` items of the infinite cyclic stream and taking one period is the
same as dropping `start_pos % slice.length` items from two concatenated
periods and taking one period; on an empty slice Rust's `cycle` yields
nothing, matching the empty result here. -/
def cycleFromPointEnumerated {α : Type} (slice : List α) (start_pos : Nat) :
    List (Nat × α) :=
  ((slice.enum ++ slice.enum).drop (start_pos % slice.length)).take slice.length

/-- Embeds the `SuggestedPerformerCriteria` enum of `search.rs`; the member
type parameter is instantiated at the concrete `Member` above. -/
inductive SuggestedPerformerCriteria where
  | None
  | Constant (member : MemberIdentifier)
  | CycleAlive
  | CycleWith (condition : MemberIdentifier → Member → Bool)

/-- The nested team/member loop duplicated verbatim in the `CycleAlive` and
`CycleWith` arms of `SuggestedPerformerCriteria::search`: cycle the teams from
the current team, skip past the current member inside the current team, and
return the first member satisfying `condition`. -/
def cycleSearchLoop (condition : MemberIdentifier → Member → Bool)
    (current : MemberIdentifier) (team_list : List Team) :
    Option MemberIdentifier :=
  (cycleFromPointEnumerated team_list current.team_id).findSome? (fun tt =>
    let skip := if current.team_id == tt.1 then current.member_id + 1 else 0
    (tt.2.member_list.enum.drop skip).findSome? (fun mm =>
      if condition ⟨tt.1, mm.1⟩ mm.2 then some (⟨tt.1, mm.1⟩ : MemberIdentifier)
      else none))

/-- Embeds `SuggestedPerformerCriteria::search` of `search.rs`.
`current_playing_member.unwrap_or_default()` becomes `Option.getD` at the
zeroed identifier. -/
def SuggestedPerformerCriteria.search (crit : SuggestedPerformerCriteria)
    (current_playing_member : Option MemberIdentifier) (team_list : List Team) :
    Option MemberIdentifier :=
  match crit with
  | .None => none
  | .Constant member => some member
  | .CycleAlive =>
      cycleSearchLoop (fun _ m => m.health != 0)
        (current_playing_member.getD default) team_list
  | .CycleWith condition =>
      cycleSearchLoop condition (current_playing_member.getD default) team_list

/-- The sequence of member coordinates examined by `cycleSearchLoop`, read off
the code: for each enumerated team of the cycle, the enumerated member indices
after the skip. -/
def codeVisitOrder (team_list : List Team) (current : MemberIdentifier) :
    List MemberIdentifier :=
  (cycleFromPointEnumerated team_list current.team_id).flatMap (fun tt =>
    let skip := if current.team_id == tt.1 then current.member_id + 1 else 0
    (tt.2.member_list.enum.drop skip).map
      (fun mm => (⟨tt.1, mm.1⟩ : MemberIdentifier)))

/-- Traversal order written from the specification's words (§4.3): teams are
visited starting from the current performer's team, wrapping cyclically to
team 0 after the last team; within the starting team only indices strictly
greater than the current member's index are examined, within every other team
scanning starts at index 0. -/
def specVisitOrder (team_list : List Team) (current : MemberIdentifier) :
    List MemberIdentifier :=
  (List.range team_list.length).flatMap (fun k =>
    let team_id := (current.team_id + k) % team_list.length
    let size := (team_list.getD team_id default).member_list.length
    let start := if k == 0 then current.member_id + 1 else 0
    ((List.range size).drop start).map
      (fun j => (⟨team_id, j⟩ : MemberIdentifier)))

/-- First identifier of `order` whose member satisfies `condition`. -/
def firstQualifying (team_list : List Team) (order : List MemberIdentifier)
    (condition : MemberIdentifier → Member → Bool) : Option MemberIdentifier :=
  order.findSome? (fun id =>
    (memberAt? team_list id).bind (fun m => if condition id m then some id else none))

/-- Embeds the `EndCondition` enum of `battle.rs`. -/
inductive EndCondition where
  | LastMemberStanding
  | LastTeamStanding
deriving DecidableEq, Repr

/-- Inner member loop of the `LastMemberStanding` arm of
`TurnSystem::battle_should_end`: counts alive members with `u8` saturating
addition; `.inl false` models the early `return false` once two alive members
are found, `.inr acc` models falling off the loop with the updated counter. -/
def lastMemberInner (members_alive : Nat) : List Member → Bool ⊕ Nat
  | [] => .inr members_alive
  | m :: ms =>
    if m.health > 0 then
      let members_alive := satAdd8 members_alive 1
      if members_alive ≥ 2 then .inl false
      else lastMemberInner members_alive ms
    else lastMemberInner members_alive ms

/-- Outer team loop of the `LastMemberStanding` arm: threads the counter
through the teams and returns `true` when the loops complete. -/
def lastMemberOuter (members_alive : Nat) : List Team → Bool
  | [] => true
  | t :: ts =>
    match lastMemberInner members_alive t.member_list with
    | .inl b => b
    | .inr acc => lastMemberOuter acc ts

/-- Inner member loop of the `LastTeamStanding` arm: on the first alive member
the team counter is bumped and the member loop `break`s (modelled by the
immediate `.inr`), or the whole function early-returns `false` at two alive
teams. -/
def lastTeamInner (teams_alive : Nat) : List Member → Bool ⊕ Nat
  | [] => .inr teams_alive
  | m :: ms =>
    if m.health > 0 then
      let teams_alive := satAdd8 teams_alive 1
      if teams_alive ≥ 2 then .inl false
      else .inr teams_alive
    else lastTeamInner teams_alive ms

/-- Outer team loop of the `LastTeamStanding` arm. -/
def lastTeamOuter (teams_alive : Nat) : List Team → Bool
  | [] => true
  | t :: ts =>
    match lastTeamInner teams_alive t.member_list with
    | .inl b => b
    | .inr acc => lastTeamOuter acc ts

/-- Embeds `TurnSystem::battle_should_end` of `battle.rs`. -/
def battle_should_end (end_condition : EndCondition) (team_list : List Team) :
    Bool :=
  match end_condition with
  | .LastMemberStanding => lastMemberOuter 0 team_list
  | .LastTeamStanding => lastTeamOuter 0 team_list

/-- Exhaustive count of members with `health > 0` across all teams, written
from the specification's words for §4.4. -/
def aliveMemberCount (team_list : List Team) : Nat :=
  (team_list.flatMap Team.member_list).countP (fun m => decide (0 < m.health))

/-- A team with at least one member having `health > 0`. -/
def teamHasAlive (t : Team) : Bool :=
  t.member_list.any (fun m => decide (0 < m.health))

/-- Exhaustive count of teams with at least one alive member, written from the
specification's words for §4.4. -/
def aliveTeamCount (team_list : List Team) : Nat :=
  team_list.countP teamHasAlive

/-- Embeds the `State` enum of `battle.rs` (the source spells it
`Preparating`). -/
inductive State where
  | Preparating
  | InProgress
  | Finished
deriving DecidableEq, Repr

/-- Embeds `TurnSystem` of `battle.rs`: `u64` turn counter, optional suggested
performer, and the configured end condition. -/
structure TurnSystem where
  turn_number : Nat
  suggested_performer : Option MemberIdentifier
  end_condition : EndCondition

/-- Embeds `TurnSystem::new`. -/
def TurnSystem.new (starting_member : MemberIdentifier)
    (end_condition : EndCondition) : TurnSystem :=
  { turn_number := 0, suggested_performer := some starting_member, end_condition }

/-- Embeds `ChoiceReturn`: the decision callback hands back an action together
with the performer and target descriptors. The boxed `dyn Action` is an
external capability whose `act` consumes the `Context` built over the mutable
team list and the two descriptors; it is modelled as an arbitrary total
function from those three components to the updated team list. -/
structure ChoiceReturn where
  act : List Team → Target → Target → List Team
  performers : Target
  targets : Target

/-- Embeds `ChoiceCallback<M>`: `(read-only team list, optional current
performer) -> ChoiceReturn`. -/
def ChoiceCallback : Type := List Team → Option MemberIdentifier → ChoiceReturn

/-- The tail of `TurnSystem::play_turn` after the suggested performer has been
resolved: invoke the decision callback, apply the action through the context,
evaluate the end condition, and either finish (leaving the suggestion as is)
or search for the next suggested performer on the post-action team list. -/
def TurnSystem.finish_turn (ts : TurnSystem) (turn_number : Nat)
    (team_list : List Team) (action_choice_callback : ChoiceCallback)
    (suggested_performer_criteria : SuggestedPerformerCriteria) :
    State × TurnSystem × List Team :=
  let choice := action_choice_callback team_list ts.suggested_performer
  let team_list := choice.act team_list choice.performers choice.targets
  if battle_should_end ts.end_condition team_list then
    (State.Finished, { ts with turn_number := turn_number }, team_list)
  else
    let suggested_performer :=
      suggested_performer_criteria.search ts.suggested_performer team_list
    (State.InProgress,
      { ts with turn_number := turn_number,
                suggested_performer := suggested_performer },
      team_list)

/-- Embeds `TurnSystem::play_turn` of `battle.rs`. A `none` result models a
panic: the turn counter check uses `checked_add` and panics on overflow, and
the informational resolution of a present suggested performer panics when the
team or the member lookup fails. -/
def TurnSystem.play_turn (ts : TurnSystem) (team_list : List Team)
    (action_choice_callback : ChoiceCallback)
    (suggested_performer_criteria : SuggestedPerformerCriteria) :
    Option (State × TurnSystem × List Team) :=
  if ts.turn_number == U64MAX then
    none
  else
    let turn_number := ts.turn_number + 1
    match ts.suggested_performer with
    | some performing_member =>
      match team_list[performing_member.team_id]? with
      | none => none
      | some playing_team =>
        match playing_team.member_list[performing_member.member_id]? with
        | none => none
        | some _playing_member =>
          some (ts.finish_turn turn_number team_list action_choice_callback
            suggested_performer_criteria)
    | none =>
      some (ts.finish_turn turn_number team_list action_choice_callback
        suggested_performer_criteria)

/-- Embeds `Battle` of `battle.rs` (the reserved `startup` field carries no
data and is omitted). -/
structure Battle where
  team_list : List Team
  turn_system : TurnSystem
  state : State
  suggested_performer_criteria : SuggestedPerformerCriteria
  action_choice_callback : ChoiceCallback

/-- Embeds `Battle::is_finished`: `matches!(self.state, State::Finished)`. -/
def Battle.is_finished (b : Battle) : Bool :=
  match b.state with
  | .Finished => true
  | _ => false

/-- Embeds `Battle::set_completed`: forces the state to `Finished`. -/
def Battle.set_completed (b : Battle) : Battle :=
  { b with state := State.Finished }

/-- Embeds `Battle::play_turn`: returns immediately when already finished,
otherwise delegates to the turn system and stores the produced state, turn
system and team list. `none` models a panic propagated from the turn system. -/
def Battle.play_turn (b : Battle) : Option Battle :=
  if b.is_finished then
    some b
  else
    (b.turn_system.play_turn b.team_list b.action_choice_callback
      b.suggested_performer_criteria).map
      (fun r => { b with state := r.1, turn_system := r.2.1, team_list := r.2.2 })

/-- Iterates `Battle::play_turn` a given number of times (the shape of the
`run` loop, fuelled). -/
def Battle.playTurnN : Nat → Battle → Option Battle
  | 0, b => some b
  | n + 1, b => b.play_turn.bind (Battle.playTurnN n)

/-! Concrete fixtures used to instantiate the theorems below. -/

/-- A sample member with the given current health and attack value, reference
health 100. -/
def sampleMember (h a : Nat) : Member := ⟨"m", ⟨100, a⟩, ⟨h, a⟩, a⟩

/-- A three-team sample roster mixing alive and dead members. -/
def sampleTeams : List Team :=
  [⟨"A", [sampleMember 0 1, sampleMember 5 2, sampleMember 7 3]⟩,
   ⟨"B", [sampleMember 0 4]⟩,
   ⟨"C", [sampleMember 9 5, sampleMember 0 6]⟩]

/-- A decision callback whose action leaves the team list unchanged. -/
def idCallback : ChoiceCallback := fun _ _ => ⟨fun tl _ _ => tl, Target.All, Target.All⟩

/-- A one-team roster whose only member is dead. -/
def deadTeams : List Team := [⟨"Z", [sampleMember 0 1]⟩]

/-- A sample battle over a single all-dead team, in the `Preparating` state. -/
def sampleBattle : Battle :=
  { team_list := deadTeams
    turn_system := TurnSystem.new MemberIdentifier.zeroed EndCondition.LastTeamStanding
    state := State.Preparating
    suggested_performer_criteria := SuggestedPerformerCriteria.CycleAlive
    action_choice_callback := idCallback }

/-! Generic list lemmas used throughout. -/

theorem findSome?_flatMap (l : List α) (f : α → List β) (g : β → Option γ) :
    (l.flatMap f).findSome? g = l.findSome? (fun a => (f a).findSome? g) := by
  induction l with
  | nil => rfl
  | cons a as ih =>
      rw [List.flatMap_cons, List.findSome?_append, List.findSome?_cons]
      cases h : (f a).findSome? g with
      | none => simpa [h] using ih
      | some b => simp [h]

theorem findSome?_congr_mem {l : List α} {f g : α → Option β}
    (h : ∀ a ∈ l, f a = g a) : l.findSome? f = l.findSome? g := by
  induction l with
  | nil => rfl
  | cons a as ih =>
      rw [List.findSome?_cons, List.findSome?_cons, h a (by simp),
        ih (fun x hx => h x (by simp [hx]))]

theorem mem_drop_range {n m j : Nat} :
    j ∈ (List.range n).drop m ↔ m ≤ j ∧ j < n := by
  rw [List.mem_iff_getElem?]
  constructor
  · rintro ⟨i, hi⟩
    rw [List.getElem?_drop, List.getElem?_eq_some_iff] at hi
    obtain ⟨hlt, hj⟩ := hi
    rw [List.getElem_range] at hj
    rw [List.length_range] at hlt
    omega
  · rintro ⟨h1, h2⟩
    refine ⟨j - m, ?_⟩
    rw [List.getElem?_drop, List.getElem?_eq_some_iff]
    refine ⟨by rw [List.length_range]; omega, ?_⟩
    rw [List.getElem_range]
    omega

theorem foldl_satAdd_attack (l : List Member) (acc : Nat) (h : acc ≤ U64MAX) :
    l.foldl (fun acc p => satAdd acc p.final_attack) acc =
      min (acc + (l.map Member.final_attack).sum) U64MAX := by
  induction l generalizing acc with
  | nil => simpa using (min_eq_left h).symm
  | cons p ps ih =>
      rw [List.foldl_cons, ih (satAdd acc p.final_attack) (min_le_right _ _)]
      simp only [List.map_cons, List.sum_cons, satAdd]
      omega

theorem totalAttack_eq_min_sum (performers : List Member) :
    totalAttack performers = min ((performers.map Member.final_attack).sum) U64MAX := by
  simpa using foldl_satAdd_attack performers 0 (by omega)

/-- C6: health arithmetic saturates. Applying damage `d` to current health `h`
yields `max (h - d) 0` (computed in the integers), and `Heal { amount := a }`
on a member with current health `h` and reference health `m ≤ u64::MAX` yields
`min (h + a) m`, never exceeding the reference health. -/
theorem health_saturation (m : Member) (d a : Nat) :
    (((m.damage d).health : Int) = max ((m.health : Int) - (d : Int)) 0)
    ∧ (m.statistics.reference_health ≤ U64MAX →
        (healMember a m).health = min (m.health + a) m.statistics.reference_health) := by
  constructor
  · simp only [Member.damage, Member.health, Properties.damage, satSub]
    omega
  · intro hr
    simp only [healMember, Member.health, satAdd]
    omega

theorem health_saturation_witness :
    (sampleMember 90 3).statistics.reference_health ≤ U64MAX
    ∧ (((sampleMember 90 3).damage 7).health : Int) =
        max (((sampleMember 90 3).health : Int) - (7 : Int)) 0
    ∧ (healMember 25 (sampleMember 90 3)).health =
        min ((sampleMember 90 3).health + 25) (sampleMember 90 3).statistics.reference_health :=
  ⟨by decide,
   (health_saturation (sampleMember 90 3) 7 25).1,
   (health_saturation (sampleMember 90 3) 7 25).2 (by decide)⟩

/-- C8: `AreaAttack` computes the `u64`-saturating sum `T` of the performers'
final attack values and deals exactly `T / n` (integer division) damage to
each of the `n` targets; with an empty target list nothing changes. -/
theorem area_attack_split (performers targets : List Member) :
    totalAttack performers = min ((performers.map Member.final_attack).sum) U64MAX
    ∧ (targets ≠ [] →
        (areaAttackAct performers targets).map Member.health =
          targets.map (fun t => satSub t.health (totalAttack performers / targets.length)))
    ∧ areaAttackAct performers [] = [] := by
  refine ⟨totalAttack_eq_min_sum performers, ?_, rfl⟩
  intro h
  have hlen : 0 < targets.length := List.length_pos.mpr h
  simp [areaAttackAct, hlen, List.map_map, Member.damage, Member.health,
    Properties.damage, Function.comp]

theorem area_attack_split_witness :
    ([sampleMember 10 0, sampleMember 2 0, sampleMember 5 0] : List Member) ≠ []
    ∧ (areaAttackAct [sampleMember 1 4, sampleMember 1 6]
        [sampleMember 10 0, sampleMember 2 0, sampleMember 5 0]).map Member.health =
      [sampleMember 10 0, sampleMember 2 0, sampleMember 5 0].map
        (fun t => satSub t.health
          (totalAttack [sampleMember 1 4, sampleMember 1 6] /
            ([sampleMember 10 0, sampleMember 2 0, sampleMember 5 0] : List Member).length)) :=
  ⟨by decide,
   (area_attack_split [sampleMember 1 4, sampleMember 1 6]
     [sampleMember 10 0, sampleMember 2 0, sampleMember 5 0]).2.1 (by decide)⟩

theorem lastMemberInner_eq (ms : List Member) :
    ∀ acc, acc < 2 →
      lastMemberInner acc ms =
        if acc + ms.countP (fun m => decide (0 < m.health)) < 2 then
          Sum.inr (acc + ms.countP (fun m => decide (0 < m.health)))
        else Sum.inl false := by
  induction ms with
  | nil =>
      intro acc h
      simp only [lastMemberInner, List.countP_nil, Nat.add_zero]
      rw [if_pos h]
  | cons m ms ih =>
      intro acc h
      simp only [lastMemberInner, List.countP_cons]
      by_cases hm : m.health > 0
      · have hsat : satAdd8 acc 1 = acc + 1 := by
          simp only [satAdd8, U8MAX]; omega
        have hd : (if (decide (0 < m.health)) = true then 1 else 0) = 1 := by simp [hm]
        rw [if_pos hm, hsat, hd]
        by_cases h2 : acc + 1 ≥ 2
        · rw [if_pos h2, if_neg (by omega)]
        · rw [if_neg h2, ih (acc + 1) (by omega),
            show acc + 1 + ms.countP (fun m => decide (0 < m.health)) =
              acc + (ms.countP (fun m => decide (0 < m.health)) + 1) from by omega]
      · have hd : (if (decide (0 < m.health)) = true then 1 else 0) = 0 := by simp [hm]
        rw [if_neg hm, hd, Nat.add_zero, ih acc h]

theorem lastMemberOuter_eq (ts : List Team) :
    ∀ acc, acc < 2 →
      lastMemberOuter acc ts = decide (acc + aliveMemberCount ts < 2) := by
  induction ts with
  | nil =>
      intro acc h
      simp only [lastMemberOuter, aliveMemberCount, List.flatMap_nil, List.countP_nil,
        Nat.add_zero]
      exact (decide_eq_true h).symm
  | cons t ts ih =>
      intro acc h
      have hcount : aliveMemberCount (t :: ts) =
          List.countP (fun m => decide (0 < m.health)) t.member_list + aliveMemberCount ts := by
        simp [aliveMemberCount, List.flatMap_cons, List.countP_append]
      simp only [lastMemberOuter]
      rw [lastMemberInner_eq t.member_list acc h]
      by_cases h3 : acc + t.member_list.countP (fun m => decide (0 < m.health)) < 2
      · rw [if_pos h3]
        show lastMemberOuter (acc + t.member_list.countP (fun m => decide (0 < m.health))) ts = _
        rw [ih _ h3, hcount]
        congr 1
        rw [Nat.add_assoc]
      · rw [if_neg h3]
        show false = _
        rw [hcount]
        have hge : ¬ (acc + (t.member_list.countP (fun m => decide (0 < m.health)) +
            aliveMemberCount ts) < 2) := by omega
        exact (decide_eq_false hge).symm

theorem lastTeamInner_eq (ms : List Member) :
    ∀ acc, acc < 2 →
      lastTeamInner acc ms =
        if ms.any (fun m => decide (0 < m.health)) then
          (if acc + 1 < 2 then Sum.inr (acc + 1) else Sum.inl false)
        else Sum.inr acc := by
  induction ms with
  | nil =>
      intro acc h
      simp [lastTeamInner]
  | cons m ms ih =>
      intro acc h
      simp only [lastTeamInner, List.any_cons]
      by_cases hm : m.health > 0
      · have hsat : satAdd8 acc 1 = acc + 1 := by
          simp only [satAdd8, U8MAX]; omega
        have hd : (decide (0 < m.health) || ms.any (fun m => decide (0 < m.health))) = true := by
          simp [hm]
        rw [if_pos hm, hsat, if_pos hd]
        by_cases h2 : acc + 1 ≥ 2
        · rw [if_pos h2, if_neg (by omega)]
        · rw [if_neg h2, if_pos (by omega)]
      · have hd : (decide (0 < m.health) || ms.any (fun m => decide (0 < m.health))) =
            ms.any (fun m => decide (0 < m.health)) := by
          simp [hm]
        rw [if_neg hm]
        simp only [hd]
        exact ih acc h

theorem lastTeamOuter_eq (ts : List Team) :
    ∀ acc, acc < 2 →
      lastTeamOuter acc ts = decide (acc + aliveTeamCount ts < 2) := by
  induction ts with
  | nil =>
      intro acc h
      simp only [lastTeamOuter, aliveTeamCount, List.countP_nil, Nat.add_zero]
      exact (decide_eq_true h).symm
  | cons t ts ih =>
      intro acc h
      have hcount : aliveTeamCount (t :: ts) =
          aliveTeamCount ts + if teamHasAlive t then 1 else 0 := List.countP_cons _ _ _
      simp only [lastTeamOuter]
      rw [lastTeamInner_eq t.member_list acc h]
      by_cases ht : t.member_list.any (fun m => decide (0 < m.health)) = true
      · have ht2 : teamHasAlive t = true := ht
        have hcount2 : aliveTeamCount (t :: ts) = aliveTeamCount ts + 1 := by
          rw [hcount, ht2]
          simp
        rw [if_pos ht]
        by_cases h2 : acc + 1 < 2
        · rw [if_pos h2]
          show lastTeamOuter (acc + 1) ts = _
          rw [ih _ h2, hcount2,
            show acc + (aliveTeamCount ts + 1) = acc + 1 + aliveTeamCount ts from by omega]
        · rw [if_neg h2]
          show false = _
          rw [hcount2]
          exact (decide_eq_false (by omega)).symm
      · have ht2 : teamHasAlive t = false := by
          simpa [teamHasAlive] using ht
        have hcount2 : aliveTeamCount (t :: ts) = aliveTeamCount ts := by
          rw [hcount, ht2]
          simp
        rw [if_neg ht]
        show lastTeamOuter acc ts = _
        rw [ih _ h, hcount2]

/-- C3: under `LastMemberStanding` the end-condition evaluator returns `true`
iff strictly fewer than 2 members across all teams have positive health, and
under `LastTeamStanding` iff strictly fewer than 2 teams have at least one
alive member; the short-circuiting loops of `battle_should_end` agree with the
exhaustive counts. -/
theorem battle_should_end_iff (team_list : List Team) :
    (battle_should_end EndCondition.LastMemberStanding team_list =
      decide (aliveMemberCount team_list < 2))
    ∧ (battle_should_end EndCondition.LastTeamStanding team_list =
      decide (aliveTeamCount team_list < 2)) := by
  constructor
  · simpa using lastMemberOuter_eq team_list 0 (by omega)
  · simpa using lastTeamOuter_eq team_list 0 (by omega)

/-- C4: `play_turn()` on an already-`Finished` battle is a complete no-op: the
battle value (state, turn system, teams, callbacks) is returned unchanged and
no turn-system work or callback runs; consequently after `set_completed()`
every iterate of `play_turn` leaves the battle unchanged. -/
theorem finished_play_turn_noop (b : Battle) :
    (b.is_finished = true → b.play_turn = some b)
    ∧ (∀ n, Battle.playTurnN n b.set_completed = some b.set_completed) := by
  constructor
  · intro h
    simp [Battle.play_turn, h]
  · intro n
    induction n with
    | zero => rfl
    | succ n ih =>
        have hstep : b.set_completed.play_turn = some b.set_completed := by
          simp [Battle.play_turn, Battle.is_finished, Battle.set_completed]
        simp [Battle.playTurnN, hstep, ih]

theorem finished_play_turn_noop_witness :
    sampleBattle.set_completed.is_finished = true
    ∧ sampleBattle.set_completed.play_turn = some sampleBattle.set_completed
    ∧ Battle.playTurnN 3 sampleBattle.set_completed = some sampleBattle.set_completed :=
  ⟨rfl, (finished_play_turn_noop sampleBattle.set_completed).1 rfl,
   (finished_play_turn_noop sampleBattle).2 3⟩

/-- C5: `TurnSystem::play_turn` fails fatally exactly when the `u64` turn
counter would overflow or when a present suggested performer does not resolve
against the team list; moreover such a failure is independent of the decision
callback, which is therefore never consulted on the failing paths. -/
theorem play_turn_panics_iff (ts : TurnSystem) (team_list : List Team)
    (cb : ChoiceCallback) (crit : SuggestedPerformerCriteria) :
    (ts.play_turn team_list cb crit = none ↔
      (ts.turn_number = U64MAX ∨
        ∃ pm, ts.suggested_performer = some pm ∧ resolvesId team_list pm = false))
    ∧ (∀ cb' : ChoiceCallback, ts.play_turn team_list cb crit = none →
        ts.play_turn team_list cb' crit = none) := by
  have key : ∀ cb0 : ChoiceCallback,
      ts.play_turn team_list cb0 crit = none ↔
        (ts.turn_number = U64MAX ∨
          ∃ pm, ts.suggested_performer = some pm ∧ resolvesId team_list pm = false) := by
    intro cb0
    unfold TurnSystem.play_turn
    by_cases hov : ts.turn_number = U64MAX
    · simp [hov]
    · rw [if_neg (by simpa using hov)]
      cases hsp : ts.suggested_performer with
      | none => simp [hov]
      | some pm =>
          cases hteam : team_list[pm.team_id]? with
          | none => simp [hov, resolvesId, memberAt?, hteam]
          | some t0 =>
              cases hmem : t0.member_list[pm.member_id]? with
              | none =>
                  simp only [hov, resolvesId, memberAt?, hteam, hmem]
                  simp
                  intro a ha
                  rw [hteam] at ha
                  cases Option.some.inj ha
                  exact List.getElem?_eq_none_iff.mp hmem
              | some m0 =>
                  simp only [hov, resolvesId, memberAt?, hteam, hmem]
                  simp
                  obtain ⟨hlt, -⟩ := List.getElem?_eq_some_iff.mp hmem
                  exact ⟨t0, hteam, hlt⟩
  exact ⟨key cb, fun cb' h => (key cb').mpr ((key cb).mp h)⟩

theorem play_turn_panics_iff_witness :
    (TurnSystem.new ⟨5, 0⟩ EndCondition.LastTeamStanding).play_turn sampleTeams
      idCallback SuggestedPerformerCriteria.CycleAlive = none :=
  (play_turn_panics_iff (TurnSystem.new ⟨5, 0⟩ EndCondition.LastTeamStanding)
      sampleTeams idCallback SuggestedPerformerCriteria.CycleAlive).2 idCallback
    ((play_turn_panics_iff (TurnSystem.new ⟨5, 0⟩ EndCondition.LastTeamStanding)
        sampleTeams idCallback SuggestedPerformerCriteria.CycleAlive).1.mpr
      (Or.inr ⟨⟨5, 0⟩, rfl, rfl⟩))

theorem finish_turn_spec (ts : TurnSystem) (t : Nat) (team_list : List Team)
    (cb : ChoiceCallback) (crit : SuggestedPerformerCriteria) :
    (ts.finish_turn t team_list cb crit).2.2 =
      (cb team_list ts.suggested_performer).act team_list
        (cb team_list ts.suggested_performer).performers
        (cb team_list ts.suggested_performer).targets
    ∧ (ts.finish_turn t team_list cb crit).2.1.turn_number = t
    ∧ ((ts.finish_turn t team_list cb crit).1 = State.Finished ↔
        battle_should_end ts.end_condition (ts.finish_turn t team_list cb crit).2.2 = true) := by
  unfold TurnSystem.finish_turn
  by_cases hb : battle_should_end ts.end_condition
      ((cb team_list ts.suggested_performer).act team_list
        (cb team_list ts.suggested_performer).performers
        (cb team_list ts.suggested_performer).targets) = true
  · simp [hb]
  · simp [hb]

/-- C10: within a single successful `play_turn` the decision callback's action
is always applied to the team list and the counter always advances, and the
returned state is `Finished` exactly when the end condition holds of the
post-action team list — the end condition is never consulted on the entry
state; at the battle level a non-finished battle always delegates to the turn
system (as the `run` loop's first step does). -/
theorem turn_executes_fully :
    (∀ (ts : TurnSystem) (team_list : List Team) (cb : ChoiceCallback)
        (crit : SuggestedPerformerCriteria) (st : State) (ts' : TurnSystem)
        (tl' : List Team),
      ts.play_turn team_list cb crit = some (st, ts', tl') →
        tl' = (cb team_list ts.suggested_performer).act team_list
                (cb team_list ts.suggested_performer).performers
                (cb team_list ts.suggested_performer).targets
        ∧ ts'.turn_number = ts.turn_number + 1
        ∧ (st = State.Finished ↔ battle_should_end ts.end_condition tl' = true))
    ∧ (∀ b : Battle, b.is_finished = false →
        b.play_turn = (b.turn_system.play_turn b.team_list b.action_choice_callback
          b.suggested_performer_criteria).map
          (fun r => { b with state := r.1, turn_system := r.2.1, team_list := r.2.2 })) := by
  constructor
  · intro ts tl cb crit st ts' tl' h
    unfold TurnSystem.play_turn at h
    by_cases hov : (ts.turn_number == U64MAX) = true
    · rw [if_pos hov] at h
      exact absurd h (by simp)
    · rw [if_neg hov] at h
      have hft : ts.finish_turn (ts.turn_number + 1) tl cb crit = (st, ts', tl') := by
        cases hsp : ts.suggested_performer with
        | none =>
            simp only [hsp] at h
            exact Option.some.inj h
        | some pm =>
            simp only [hsp] at h
            cases hteam : tl[pm.team_id]? with
            | none =>
                simp only [hteam] at h
                exact Option.noConfusion h
            | some t0 =>
                simp only [hteam] at h
                cases hmem : t0.member_list[pm.member_id]? with
                | none =>
                    simp only [hmem] at h
                    exact Option.noConfusion h
                | some m0 =>
                    simp only [hmem] at h
                    exact Option.some.inj h
      obtain ⟨h1, h2, h3⟩ := finish_turn_spec ts (ts.turn_number + 1) tl cb crit
      rw [hft] at h1 h2 h3
      exact ⟨h1, h2, h3⟩
  · intro b hb
    unfold Battle.play_turn
    rw [if_neg (by simp [hb])]

theorem turn_executes_fully_witness :
    (deadTeams =
      (idCallback deadTeams (some MemberIdentifier.zeroed)).act deadTeams
        (idCallback deadTeams (some MemberIdentifier.zeroed)).performers
        (idCallback deadTeams (some MemberIdentifier.zeroed)).targets
    ∧ (⟨1, some MemberIdentifier.zeroed, EndCondition.LastTeamStanding⟩ : TurnSystem).turn_number =
        (TurnSystem.new MemberIdentifier.zeroed EndCondition.LastTeamStanding).turn_number + 1
    ∧ (State.Finished = State.Finished ↔
        battle_should_end EndCondition.LastTeamStanding deadTeams = true))
    ∧ sampleBattle.play_turn =
      (sampleBattle.turn_system.play_turn sampleBattle.team_list
        sampleBattle.action_choice_callback
        sampleBattle.suggested_performer_criteria).map
        (fun r => { sampleBattle with
          state := r.1, turn_system := r.2.1, team_list := r.2.2 }) :=
  ⟨turn_executes_fully.1 (TurnSystem.new MemberIdentifier.zeroed EndCondition.LastTeamStanding)
      deadTeams idCallback SuggestedPerformerCriteria.CycleAlive State.Finished
      ⟨1, some MemberIdentifier.zeroed, EndCondition.LastTeamStanding⟩ deadTeams rfl,
   turn_executes_fully.2 sampleBattle rfl⟩

theorem mem_enumRoster_iff (team_list : List Team) (id : MemberIdentifier)
    (m : Member) :
    (id, m) ∈ enumRoster team_list ↔ memberAt? team_list id = some m := by
  unfold enumRoster
  rw [List.mem_flatMap]
  constructor
  · rintro ⟨⟨i, t⟩, hti, hmem⟩
    rw [List.mem_map] at hmem
    obtain ⟨⟨j, m'⟩, hj, heq⟩ := hmem
    rw [List.mk_mem_enum_iff_getElem?] at hti hj
    have h1 : id = ⟨i, j⟩ := (congrArg Prod.fst heq).symm
    have h2 : m = m' := (congrArg Prod.snd heq).symm
    rw [h1, h2]
    show (team_list[i]?.bind fun team => team.member_list[j]?) = some m'
    rw [hti, Option.some_bind]
    exact hj
  · intro h
    unfold memberAt? at h
    cases hteam : team_list[id.team_id]? with
    | none => rw [hteam] at h; exact Option.noConfusion h
    | some t =>
        rw [hteam] at h
        have h2 : t.member_list[id.member_id]? = some m := h
        refine ⟨(id.team_id, t), ?_, ?_⟩
        · rw [List.mk_mem_enum_iff_getElem?]
          exact hteam
        · rw [List.mem_map]
          refine ⟨(id.member_id, m), ?_, ?_⟩
          · rw [List.mk_mem_enum_iff_getElem?]
            exact h2
          · cases id
            rfl

theorem nodup_enumRoster_fst (team_list : List Team) :
    ((enumRoster team_list).map Prod.fst).Nodup := by
  unfold enumRoster
  rw [List.map_flatMap]
  rw [List.nodup_flatMap]
  constructor
  · intro ⟨i, t⟩ hx
    rw [List.map_map]
    have : (Prod.fst ∘ fun mj : Nat × Member => ((⟨i, mj.1⟩ : MemberIdentifier), mj.2)) =
        (fun j : Nat => (⟨i, j⟩ : MemberIdentifier)) ∘ Prod.fst := rfl
    rw [this, ← List.map_map, List.enum_map_fst]
    refine List.Nodup.map ?_ (List.nodup_range _)
    intro a b hab
    exact congrArg MemberIdentifier.member_id hab
  · have hlt : List.Pairwise (fun a b : Nat × Team => a.1 < b.1) team_list.enum := by
      rw [← List.pairwise_map (f := Prod.fst)]
      rw [List.enum_map_fst]
      exact List.pairwise_lt_range _
    refine hlt.imp ?_
    intro a b hab
    intro x hxa hxb
    simp only [List.map_map, List.mem_map] at hxa hxb
    obtain ⟨mja, -, rfl⟩ := hxa
    obtain ⟨mjb, -, heq⟩ := hxb
    have : b.1 = a.1 := congrArg MemberIdentifier.team_id heq
    omega

theorem mem_enumRoster_fst_iff (team_list : List Team) (id : MemberIdentifier) :
    id ∈ (enumRoster team_list).map Prod.fst ↔ resolvesId team_list id = true := by
  rw [List.mem_map]
  constructor
  · rintro ⟨⟨id', m⟩, hp, rfl⟩
    rw [mem_enumRoster_iff] at hp
    simp [resolvesId, hp]
  · intro h
    rw [resolvesId, Option.isSome_iff_exists] at h
    obtain ⟨m, hm⟩ := h
    exact ⟨(id, m), (mem_enumRoster_iff team_list id m).mpr hm, rfl⟩

/-- C7: `DiscreteMultiple` resolution never panics, yields exactly one
reference per distinct identifier in the list that resolves against the
roster, and depends only on the membership of the id list (so duplicate
identifiers collapse and non-resolving identifiers are silently skipped). -/
theorem discrete_multiple_spec (team_list : List Team)
    (ids : List MemberIdentifier) :
    ∃ l, targetIter team_list (Target.DiscreteMultiple ids) = some l
    ∧ l.length = (ids.dedup.filter (fun id => resolvesId team_list id)).length
    ∧ ∀ ids', (∀ x, x ∈ ids' ↔ x ∈ ids) →
        targetIter team_list (Target.DiscreteMultiple ids') = some l := by
  refine ⟨_, rfl, ?_, ?_⟩
  · rw [List.length_map, ← List.countP_eq_length_filter]
    have h1 : List.countP (fun p => ids.contains p.1) (enumRoster team_list) =
        List.countP (fun x => ids.contains x) ((enumRoster team_list).map Prod.fst) := by
      rw [List.countP_map]
      rfl
    rw [h1, List.countP_eq_length_filter]
    have hperm :
        (((enumRoster team_list).map Prod.fst).filter (fun x => ids.contains x)).Perm
          (ids.dedup.filter (fun id => resolvesId team_list id)) := by
      rw [List.perm_ext_iff_of_nodup
        (List.Nodup.filter _ (nodup_enumRoster_fst team_list))
        (List.Nodup.filter _ (List.nodup_dedup ids))]
      intro a
      rw [List.mem_filter, List.mem_filter, List.mem_dedup, mem_enumRoster_fst_iff]
      constructor
      · rintro ⟨hres, hmem⟩
        exact ⟨List.elem_iff.mp hmem, hres⟩
      · rintro ⟨hmem, hres⟩
        exact ⟨hres, List.elem_iff.mpr hmem⟩
    exact hperm.length_eq
  · intro ids' hsame
    have hcong : ∀ p ∈ enumRoster team_list,
        (ids'.contains p.1) = (ids.contains p.1) := by
      intro p _
      by_cases hx : p.1 ∈ ids
      · have ha : ids.contains p.1 = true := List.elem_iff.mpr hx
        have hb : ids'.contains p.1 = true := List.elem_iff.mpr ((hsame p.1).mpr hx)
        rw [ha, hb]
      · have hx' : p.1 ∉ ids' := fun hc => hx ((hsame p.1).mp hc)
        have e1 : ids.contains p.1 = false := by
          rw [← Bool.not_eq_true]
          exact fun hc => hx (List.elem_iff.mp hc)
        have e2 : ids'.contains p.1 = false := by
          rw [← Bool.not_eq_true]
          exact fun hc => hx' (List.elem_iff.mp hc)
        rw [e1, e2]
    show some _ = some _
    rw [List.filter_congr hcong]

theorem discrete_multiple_spec_witness :
    targetIter sampleTeams
        (Target.DiscreteMultiple [⟨0, 1⟩, ⟨0, 1⟩, ⟨9, 9⟩]) =
      targetIter sampleTeams (Target.DiscreteMultiple [⟨9, 9⟩, ⟨0, 1⟩]) := by
  obtain ⟨l, h1, -, h3⟩ :=
    discrete_multiple_spec sampleTeams [⟨0, 1⟩, ⟨0, 1⟩, ⟨9, 9⟩]
  rw [h1, h3 [⟨9, 9⟩, ⟨0, 1⟩] (by intro x; simp [List.mem_cons]; tauto)]

/-- C1 counterexample: on the empty team list, resolving `Single((0,0))` or
`FullTeam(0)` hits the `.expect(...)` calls of `Context::target_iter` and
panics (modelled by `none`) instead of yielding an empty sequence. -/
theorem target_resolution_panics_counterexample :
    targetIter [] (Target.Single MemberIdentifier.zeroed) = none
    ∧ targetIter [] (Target.FullTeam 0) = none := ⟨rfl, rfl⟩

/-- C1 (amended): target resolution never panics for `DiscreteMultiple` and
`All` and matches the variants' semantics whenever the identifiers resolve,
but `Single` with a non-resolving id and `FullTeam` with a non-existent team
fail hard (panic) instead of yielding an empty sequence. -/
theorem target_resolution_amended (team_list : List Team) :
    (∀ ids, (targetIter team_list (Target.DiscreteMultiple ids)).isSome = true)
    ∧ targetIter team_list Target.All = some (team_list.flatMap Team.member_list)
    ∧ (∀ id m, memberAt? team_list id = some m →
        targetIter team_list (Target.Single id) = some [m])
    ∧ (∀ id, memberAt? team_list id = none →
        targetIter team_list (Target.Single id) = none)
    ∧ (∀ team_id t, team_list[team_id]? = some t →
        targetIter team_list (Target.FullTeam team_id) = some t.member_list)
    ∧ (∀ team_id, team_list.length ≤ team_id →
        targetIter team_list (Target.FullTeam team_id) = none) := by
  refine ⟨fun ids => rfl, rfl, ?_, ?_, ?_, ?_⟩
  · intro id m h
    unfold memberAt? at h
    show (team_list[id.team_id]?.bind fun team =>
      (team.member_list[id.member_id]?.bind fun m => some [m])) = some [m]
    cases hteam : team_list[id.team_id]? with
    | none => rw [hteam] at h; exact Option.noConfusion h
    | some t =>
        rw [hteam] at h
        have h2 : t.member_list[id.member_id]? = some m := h
        rw [Option.some_bind, h2, Option.some_bind]
  · intro id h
    unfold memberAt? at h
    show (team_list[id.team_id]?.bind fun team =>
      (team.member_list[id.member_id]?.bind fun m => some [m])) = none
    cases hteam : team_list[id.team_id]? with
    | none => rw [Option.none_bind]
    | some t =>
        rw [hteam] at h
        have h2 : t.member_list[id.member_id]? = none := h
        rw [Option.some_bind, h2, Option.none_bind]
  · intro team_id t h
    show (team_list[team_id]?.bind fun team => some team.member_list) = some t.member_list
    rw [h, Option.some_bind]
  · intro team_id h
    show (team_list[team_id]?.bind fun team => some team.member_list) = none
    rw [List.getElem?_eq_none h, Option.none_bind]

theorem target_resolution_amended_witness :
    memberAt? sampleTeams ⟨0, 1⟩ = some (sampleMember 5 2)
    ∧ targetIter sampleTeams (Target.Single ⟨0, 1⟩) = some [sampleMember 5 2]
    ∧ memberAt? sampleTeams ⟨9, 0⟩ = none
    ∧ targetIter sampleTeams (Target.Single ⟨9, 0⟩) = none
    ∧ sampleTeams.length ≤ 9
    ∧ targetIter sampleTeams (Target.FullTeam 9) = none :=
  ⟨rfl,
   (target_resolution_amended sampleTeams).2.2.1 ⟨0, 1⟩ (sampleMember 5 2) rfl,
   rfl,
   (target_resolution_amended sampleTeams).2.2.2.1 ⟨9, 0⟩ rfl,
   by decide,
   (target_resolution_amended sampleTeams).2.2.2.2.2 9 (by decide)⟩

theorem flatMap_congr_mem {l : List α} {f g : α → List β}
    (h : ∀ a ∈ l, f a = g a) : l.flatMap f = l.flatMap g := by
  induction l with
  | nil => rfl
  | cons a as ih =>
      rw [List.flatMap_cons, List.flatMap_cons, h a (by simp),
        ih (fun x hx => h x (by simp [hx]))]

theorem mod_shift_inj (s n k k' : Nat) (hk : k < n) (hk' : k' < n)
    (h : (s + k) % n = (s + k') % n) : k = k' := by
  have h2 : k ≡ k' [MOD n] := Nat.ModEq.add_left_cancel (Nat.ModEq.refl s) h
  have h3 : k % n = k' % n := h2
  rw [Nat.mod_eq_of_lt hk, Nat.mod_eq_of_lt hk'] at h3
  exact h3

theorem cycle_norm {α : Type} [Inhabited α] (l : List α) (s : Nat)
    (hn : 0 < l.length) :
    cycleFromPointEnumerated l s =
      (List.range l.length).map (fun k =>
        ((s + k) % l.length, l.getD ((s + k) % l.length) default)) := by
  apply List.ext_getElem?
  intro i
  unfold cycleFromPointEnumerated
  by_cases hi : i < l.length
  · rw [List.getElem?_take, if_pos hi, List.getElem?_drop, List.getElem?_append,
      List.enum_length]
    simp only [List.getElem?_map, List.getElem?_range hi, Option.map_some']
    by_cases hcase : s % l.length + i < l.length
    · rw [if_pos hcase, List.getElem?_enum]
      have hmod : (s + i) % l.length = s % l.length + i := by
        rw [Nat.add_mod, Nat.mod_eq_of_lt hi]
        exact Nat.mod_eq_of_lt hcase
      rw [List.getElem?_eq_getElem hcase, Option.map_some', hmod,
        List.getD_eq_getElem l default hcase]
    · rw [if_neg hcase]
      have hs' : s % l.length < l.length := Nat.mod_lt _ hn
      have hlt : s % l.length + i - l.length < l.length := by omega
      have hmod : (s + i) % l.length = s % l.length + i - l.length := by
        rw [Nat.add_mod, Nat.mod_eq_of_lt hi, Nat.mod_eq_sub_mod (by omega)]
        exact Nat.mod_eq_of_lt hlt
      rw [List.getElem?_enum, List.getElem?_eq_getElem hlt, Option.map_some', hmod,
        List.getD_eq_getElem l default hlt]
  · rw [List.getElem?_take, if_neg hi, List.getElem?_map,
      List.getElem?_eq_none (by rw [List.length_range]; omega)]
    rfl

theorem codeVisitOrder_norm (tl : List Team) (cur : MemberIdentifier)
    (hn : 0 < tl.length) :
    codeVisitOrder tl cur =
      (List.range tl.length).flatMap (fun k =>
        ((List.range
            ((tl.getD ((cur.team_id + k) % tl.length) default).member_list.length)).drop
          (if cur.team_id == (cur.team_id + k) % tl.length then cur.member_id + 1
           else 0)).map
          (fun j => (⟨(cur.team_id + k) % tl.length, j⟩ : MemberIdentifier))) := by
  unfold codeVisitOrder
  rw [cycle_norm tl cur.team_id hn, List.flatMap_map]
  apply flatMap_congr_mem
  intro k _
  show ((tl.getD ((cur.team_id + k) % tl.length) default).member_list.enum.drop
      (if cur.team_id == (cur.team_id + k) % tl.length then cur.member_id + 1
       else 0)).map
      (fun mm => (⟨(cur.team_id + k) % tl.length, mm.1⟩ : MemberIdentifier)) = _
  rw [show (fun mm : Nat × Member =>
        (⟨(cur.team_id + k) % tl.length, mm.1⟩ : MemberIdentifier)) =
      (fun j : Nat => (⟨(cur.team_id + k) % tl.length, j⟩ : MemberIdentifier)) ∘
        Prod.fst from rfl]
  rw [← List.map_map, List.map_drop, List.enum_map_fst]

theorem specVisitOrder_eq_code (tl : List Team) (cur : MemberIdentifier)
    (h : cur.team_id < tl.length) :
    codeVisitOrder tl cur = specVisitOrder tl cur := by
  have hn : 0 < tl.length := by omega
  rw [codeVisitOrder_norm tl cur hn]
  unfold specVisitOrder
  apply flatMap_congr_mem
  intro k hk
  rw [List.mem_range] at hk
  have hcond : (cur.team_id == (cur.team_id + k) % tl.length) = (k == 0) := by
    by_cases hk0 : k = 0
    · subst hk0
      rw [Nat.add_zero, Nat.mod_eq_of_lt h]
      rw [beq_self_eq_true]
      rfl
    · have hne : cur.team_id ≠ (cur.team_id + k) % tl.length := by
        intro heq
        have hmod : (cur.team_id + k) % tl.length = (cur.team_id + 0) % tl.length := by
          rw [Nat.add_zero, Nat.mod_eq_of_lt h, ← heq]
        have hk0' : k = 0 := mod_shift_inj cur.team_id tl.length k 0 hk hn hmod
        exact hk0 hk0'
      rw [beq_eq_false_iff_ne.mpr hne, beq_eq_false_iff_ne.mpr hk0]
  rw [hcond]

theorem nodup_codeVisitOrder (tl : List Team) (cur : MemberIdentifier) :
    (codeVisitOrder tl cur).Nodup := by
  rcases Nat.eq_zero_or_pos tl.length with hz | hn
  · have htl : tl = [] := List.length_eq_zero.mp hz
    subst htl
    have : codeVisitOrder [] cur = [] := rfl
    rw [this]
    exact List.nodup_nil
  · rw [codeVisitOrder_norm tl cur hn]
    rw [List.nodup_flatMap]
    constructor
    · intro k _
      refine List.Nodup.map ?_
        (List.Nodup.sublist (List.drop_sublist _ _) (List.nodup_range _))
      intro a b hab
      exact congrArg MemberIdentifier.member_id hab
    · rw [List.pairwise_iff_getElem]
      intro i j hi hj hij
      rw [List.length_range] at hi hj
      simp only [List.getElem_range]
      intro x hxi hxj
      rw [List.mem_map] at hxi hxj
      obtain ⟨a, -, rfl⟩ := hxi
      obtain ⟨b, -, heq⟩ := hxj
      have hteam : (cur.team_id + j) % tl.length = (cur.team_id + i) % tl.length :=
        congrArg MemberIdentifier.team_id heq
      have : j = i := mod_shift_inj cur.team_id tl.length j i hj hi hteam
      omega

theorem mem_cycle_getElem? {α : Type} {l : List α} {s i : Nat} {a : α}
    (h : (i, a) ∈ cycleFromPointEnumerated l s) : l[i]? = some a := by
  unfold cycleFromPointEnumerated at h
  have h1 := List.mem_of_mem_take h
  have h2 := List.mem_of_mem_drop h1
  rw [List.mem_append] at h2
  rcases h2 with h3 | h3 <;> exact (List.mk_mem_enum_iff_getElem?).mp h3

theorem cycleSearchLoop_eq (condition : MemberIdentifier → Member → Bool)
    (current : MemberIdentifier) (team_list : List Team) :
    cycleSearchLoop condition current team_list =
      firstQualifying team_list (codeVisitOrder team_list current) condition := by
  unfold cycleSearchLoop codeVisitOrder firstQualifying
  rw [findSome?_flatMap]
  apply findSome?_congr_mem
  intro tt htt
  obtain ⟨tid, team⟩ := tt
  have hteam : team_list[tid]? = some team := mem_cycle_getElem? htt
  rw [List.findSome?_map]
  apply findSome?_congr_mem
  intro mm hmm
  obtain ⟨mid, mem⟩ := mm
  have hmem : team.member_list[mid]? = some mem :=
    (List.mk_mem_enum_iff_getElem?).mp (List.mem_of_mem_drop hmm)
  have hat : memberAt? team_list ⟨tid, mid⟩ = some mem := by
    show (team_list[tid]?.bind fun t => t.member_list[mid]?) = some mem
    rw [hteam, Option.some_bind]
    exact hmem
  show (if condition ⟨tid, mid⟩ mem then some (⟨tid, mid⟩ : MemberIdentifier)
      else none) =
    (memberAt? team_list ⟨tid, mid⟩).bind
      (fun m => if condition ⟨tid, mid⟩ m then some (⟨tid, mid⟩ : MemberIdentifier)
        else none)
  rw [hat, Option.some_bind]

theorem cycleSearchLoop_mem (condition : MemberIdentifier → Member → Bool)
    (current id : MemberIdentifier) (team_list : List Team)
    (h : cycleSearchLoop condition current team_list = some id) :
    id ∈ codeVisitOrder team_list current := by
  rw [cycleSearchLoop_eq] at h
  obtain ⟨a, ha, hfa⟩ := List.exists_of_findSome?_eq_some h
  cases hm : memberAt? team_list a with
  | none =>
      rw [hm] at hfa
      exact Option.noConfusion hfa
  | some m =>
      rw [hm, Option.some_bind] at hfa
      by_cases hc : condition a m
      · rw [if_pos hc] at hfa
        rw [← Option.some.inj hfa]
        exact ha
      · rw [if_neg hc] at hfa
        exact Option.noConfusion hfa

theorem not_mem_code_start (tl : List Team) (cur : MemberIdentifier)
    (h : cur.team_id < tl.length) :
    ∀ id ∈ codeVisitOrder tl cur, id.team_id = cur.team_id →
      cur.member_id < id.member_id := by
  have hn : 0 < tl.length := by omega
  rw [codeVisitOrder_norm tl cur hn]
  intro id hid hteam
  rw [List.mem_flatMap] at hid
  obtain ⟨k, hk, hbody⟩ := hid
  rw [List.mem_range] at hk
  rw [List.mem_map] at hbody
  obtain ⟨j, hj, rfl⟩ := hbody
  have hteam' : (cur.team_id + k) % tl.length = cur.team_id := hteam
  have hk0 : k = 0 := by
    apply mod_shift_inj cur.team_id tl.length k 0 hk hn
    rw [Nat.add_zero, Nat.mod_eq_of_lt h]
    exact hteam'
  subst hk0
  have hcond : (cur.team_id == (cur.team_id + 0) % tl.length) = true := by
    rw [Nat.add_zero, Nat.mod_eq_of_lt h]
    exact beq_self_eq_true _
  rw [hcond, if_pos rfl] at hj
  rw [mem_drop_range] at hj
  show cur.member_id < j
  omega

/-- C2: for every team list and (in-range) current performer, `CycleAlive` and
`CycleWith` return the first qualifying member of the examined sequence
`codeVisitOrder`, which visits each member at most once (`Nodup`) and, when
the current performer's team exists, equals the spec-described order
`specVisitOrder`: the current team from the index strictly after the current
member, then the following teams from index 0, wrapping to team 0 after the
last; when no member qualifies the search returns `none`. -/
theorem cycle_search_spec (team_list : List Team) (current : MemberIdentifier)
    (condition : MemberIdentifier → Member → Bool) :
    (codeVisitOrder team_list current).Nodup
    ∧ SuggestedPerformerCriteria.CycleAlive.search (some current) team_list =
        firstQualifying team_list (codeVisitOrder team_list current)
          (fun _ m => m.health != 0)
    ∧ (SuggestedPerformerCriteria.CycleWith condition).search (some current)
        team_list =
        firstQualifying team_list (codeVisitOrder team_list current) condition
    ∧ (current.team_id < team_list.length →
        codeVisitOrder team_list current = specVisitOrder team_list current)
    ∧ ((∀ id m, memberAt? team_list id = some m → condition id m = false) →
        (SuggestedPerformerCriteria.CycleWith condition).search (some current)
          team_list = none) := by
  refine ⟨nodup_codeVisitOrder team_list current,
    cycleSearchLoop_eq (fun _ m => m.health != 0) current team_list,
    cycleSearchLoop_eq condition current team_list,
    specVisitOrder_eq_code team_list current,
    ?_⟩
  intro hnone
  show cycleSearchLoop condition current team_list = none
  rw [cycleSearchLoop_eq, firstQualifying, List.findSome?_eq_none_iff]
  intro id _
  cases hm : memberAt? team_list id with
  | none => rfl
  | some m => rw [Option.some_bind, if_neg (by simp [hnone id m hm])]

theorem cycle_search_spec_witness :
    (⟨0, 1⟩ : MemberIdentifier).team_id < sampleTeams.length
    ∧ codeVisitOrder sampleTeams ⟨0, 1⟩ = specVisitOrder sampleTeams ⟨0, 1⟩
    ∧ (SuggestedPerformerCriteria.CycleWith (fun _ _ => false)).search
        (some ⟨0, 1⟩) sampleTeams = none :=
  ⟨by decide,
   (cycle_search_spec sampleTeams ⟨0, 1⟩ (fun _ _ => false)).2.2.2.1 (by decide),
   (cycle_search_spec sampleTeams ⟨0, 1⟩ (fun _ _ => false)).2.2.2.2
     (fun _ _ _ => rfl)⟩

/-- C9: a `CycleAlive`/`CycleWith` search with no current performer behaves
exactly as if the current performer were `(0, 0)`; consequently `(0, 0)` can
never be returned by such a call, and in every search call no member of the
starting team at an index at most the current member's index is ever
examined. -/
theorem search_none_defaults_zeroed (team_list : List Team)
    (condition : MemberIdentifier → Member → Bool) :
    SuggestedPerformerCriteria.CycleAlive.search none team_list =
        SuggestedPerformerCriteria.CycleAlive.search
          (some MemberIdentifier.zeroed) team_list
    ∧ (SuggestedPerformerCriteria.CycleWith condition).search none team_list =
        (SuggestedPerformerCriteria.CycleWith condition).search
          (some MemberIdentifier.zeroed) team_list
    ∧ SuggestedPerformerCriteria.CycleAlive.search none team_list ≠
        some MemberIdentifier.zeroed
    ∧ (SuggestedPerformerCriteria.CycleWith condition).search none team_list ≠
        some MemberIdentifier.zeroed
    ∧ (∀ current j, current.team_id < team_list.length →
        j ≤ current.member_id →
        (⟨current.team_id, j⟩ : MemberIdentifier) ∉
          codeVisitOrder team_list current) := by
  have hnotmem : ∀ cond : MemberIdentifier → Member → Bool,
      cycleSearchLoop cond MemberIdentifier.zeroed team_list ≠
        some MemberIdentifier.zeroed := by
    intro cond heq
    have hmem := cycleSearchLoop_mem cond MemberIdentifier.zeroed
      MemberIdentifier.zeroed team_list heq
    rcases Nat.eq_zero_or_pos team_list.length with hz | hn
    · have htl : team_list = [] := List.length_eq_zero.mp hz
      subst htl
      have hempty : codeVisitOrder [] MemberIdentifier.zeroed = [] := rfl
      rw [hempty] at hmem
      exact List.not_mem_nil _ hmem
    · have hlt := not_mem_code_start team_list MemberIdentifier.zeroed hn
        MemberIdentifier.zeroed hmem rfl
      exact Nat.lt_irrefl _ hlt
  refine ⟨rfl, rfl, hnotmem (fun _ m => m.health != 0), hnotmem condition, ?_⟩
  intro current j hteam hj hmem
  have hlt := not_mem_code_start team_list current hteam
    ⟨current.team_id, j⟩ hmem rfl
  have hlt2 : current.member_id < j := hlt
  omega

theorem search_none_defaults_zeroed_witness :
    (⟨0, 1⟩ : MemberIdentifier).team_id < sampleTeams.length
    ∧ (0 : Nat) ≤ (⟨0, 1⟩ : MemberIdentifier).member_id
    ∧ (⟨0, 0⟩ : MemberIdentifier) ∉ codeVisitOrder sampleTeams ⟨0, 1⟩ :=
  ⟨by decide, by decide,
   (search_none_defaults_zeroed sampleTeams (fun _ _ => false)).2.2.2.2 ⟨0, 1⟩ 0
     (by decide) (by decide)⟩

end FiercefulAtto
